import Mathlib

/-!
Verification of the DALL·E mini inference-pipeline notebook
(`src/tools/inference/inference_pipeline.ipynb`).

The notebook drives a multi-device batched generate → decode → score → rank
pipeline.  We embed its computational skeleton shallowly: arrays become
lists, the three opaque pretrained models (the text-to-image-token
transformer, the VQGAN codec and the CLIP scorer) become parameters of the
definitions, and the JAX PRNG becomes an explicit deterministic key type.
Device-level parallelism (`jax.pmap`) is data parallelism over shards of a
batch, so `pmap f` over a sharded batch is `List.map f` over the shards.
-/

/-! ## Device distributor (flax `shard` / merge back, notebook cells 23 and 28)

Modelled from the spec: the body of `flax.training.common_utils.shard` is not
part of this repository (the notebook only calls it).  Per the spec it splits
any array whose leading dimension is a multiple of the worker count into
per-worker shards, preserving element order, and the inverse operation
reassembles the shards.  `shard` reshapes the leading axis `n` into
`(W, n / W)`; we model an array by the list of its leading-axis slices, so
sharding chunks that list into `W` consecutive chunks of size `n / W` and
`unshard` concatenates them back. -/

/-- Take `n` consecutive chunks of size `k` from a list (the reshape of the
leading axis `n * k` into `(n, k)`). -/
def chunkExact (k : ℕ) : ℕ → List α → List (List α)
  | 0, _ => []
  | n + 1, xs => xs.take k :: chunkExact k n (xs.drop k)

/-- Modelled from the spec: flax `shard` — split a batch into one chunk per
worker, `W` chunks of size `length / W`, in order. -/
def shard (W : ℕ) (xs : List α) : List (List α) :=
  chunkExact (xs.length / W) W xs

/-- Modelled from the spec: the inverse of `shard` — reassemble the
per-worker shards into one batch (the reshape collapsing the device axis,
as `decoded_images.reshape((-1, 256, 256, 3))` and `logits.flatten()` do in
cells 26 and 28). -/
def unshard (xss : List (List α)) : List α :=
  xss.flatten

/-! ## Random keys (notebook cells 12 and 26)

Modelled from the spec: the JAX PRNG (`jax.random.PRNGKey`,
`jax.random.split`, flax `shard_prng_key`) is not part of this repository.
Per the spec the key handling is deterministic: a key splits into fresh
independent keys, one distinct sub-key per worker.  We model keys as natural
numbers and splitting by the injective pairing function. -/

/-- Modelled from the spec: `jax.random.PRNGKey seed` — a deterministic key
built from the integer seed (cell 12). -/
def PRNGKey (seed : ℕ) : ℕ :=
  seed

/-- Modelled from the spec: `jax.random.split key` — deterministically derive
a new carry key and a sub-key, as in `key, subkey = jax.random.split(key)`
(cell 26). -/
def splitKey (k : ℕ) : ℕ × ℕ :=
  (Nat.pair 0 k, Nat.pair 1 k)

/-- Modelled from the spec: flax `shard_prng_key` — deterministically split a
key into one distinct sub-key per worker (cell 26). -/
def shardPrngKey (k W : ℕ) : List ℕ :=
  (List.range W).map fun i => Nat.pair (i + 2) k

/-- The sequence of per-iteration sub-keys produced by threading
`key, subkey = jax.random.split(key)` through `n` loop iterations
(cell 26). -/
def subkeySeq : ℕ → ℕ → List ℕ
  | _, 0 => []
  | k, n + 1 => (splitKey k).2 :: subkeySeq (splitKey k).1 n

/-! ## Prompt normalisation and tokenisation (notebook cells 18 and 20) -/

/-- Cell 18: `processed_prompt = text_normalizer(prompt) if
model.config.normalize_text else prompt`. -/
def processedPrompt (normalizeText : Bool) (normalizer : String → String)
    (prompt : String) : String :=
  if normalizeText then normalizer prompt else prompt

/-- The pad/truncate behaviour of the Hugging Face tokenizer call of cell 20
(`padding="max_length", truncation=True, max_length=maxLen`): the raw
tokenisation is truncated to `maxLen` tokens and padded with `padId` up to
`maxLen`. -/
def padToMax (maxLen padId : ℕ) (ts : List ℕ) : List ℕ :=
  ts.take maxLen ++ List.replicate (maxLen - ts.length) padId

/-- The attention mask accompanying `padToMax`: 1 on real tokens, 0 on
padding. -/
def attentionMask (maxLen : ℕ) (ts : List ℕ) : List ℕ :=
  List.replicate (min ts.length maxLen) 1 ++ List.replicate (maxLen - ts.length) 0

/-- Cell 20: the Tokenizer Adapter.  `tok` is the pretrained vocabulary
tokenisation (modelled from the spec as an arbitrary function: the
pretrained tokenizer is an opaque external artifact); the call pads or
truncates to the fixed max length 128 with pad id 1 (cell 21) and returns
token ids with the attention mask. -/
def tokenizerAdapter (tok : String → List ℕ) (prompt : String) :
    List ℕ × List ℕ :=
  (padToMax 128 1 (tok prompt), attentionMask 128 (tok prompt))

/-- Cell 20: the prompt is repeated once per device and tokenised,
`tokenizer([processed_prompt] * jax.device_count(), ...)`. -/
def tokenizedPrompt (tok : String → List ℕ) (W : ℕ) (prompt : String) :
    List (List ℕ × List ℕ) :=
  (List.replicate W prompt).map (tokenizerAdapter tok)

/-! ## Generation, BOS stripping, decoding (notebook cells 10 and 26) -/

/-- Cell 10/26: `p_generate` — one generated image-token sequence per worker;
`gen` abstracts `model.generate` on the fixed tokenized prompt as a function
of the per-worker sub-key (the pretrained model is an opaque external
artifact). -/
def pGenerate (gen : ℕ → List ℕ) (keys : List ℕ) : List (List ℕ) :=
  keys.map gen

/-- Cell 26: `encoded_images.sequences[..., 1:]` — remove the BOS token at
position 0 of each sequence. -/
def stripBOS (s : List ℕ) : List ℕ :=
  s.drop 1

/-- Elementwise `clip(0.0, 1.0)` of cell 26: values below 0 become 0, values
above 1 become 1. -/
def clip01 (x : ℚ) : ℚ :=
  min (max x 0) 1

/-- The image resolution fixed by the codec: 256 × 256 × 3 pixel values per
image. -/
def imageSize : ℕ :=
  256 * 256 * 3

/-- Cell 26: `decoded_images.clip(0.0, 1.0).reshape((-1, 256, 256, 3))` —
clip the raw codec output elementwise into [0,1] and reshape the flat data
into images of 256 × 256 × 3 values. -/
def decodeStage (raw : List ℚ) : List (List ℚ) :=
  chunkExact imageSize (raw.length / imageSize) (raw.map clip01)

/-- One iteration of the generation loop of cell 26: shard the fresh sub-key
across the workers, generate one image-token sequence per worker, strip the
BOS token, decode each sequence with the codec (`dec` abstracts
`vqgan.decode_code` per sequence, yielding that sequence's raw pixel
values), then clip and reshape into images. -/
def loopIteration (W : ℕ) (gen : ℕ → List ℕ) (dec : List ℕ → List ℚ)
    (subkey : ℕ) : List (List ℚ) :=
  decodeStage (((pGenerate gen (shardPrngKey subkey W)).map
    (fun s => dec (stripBOS s))).flatten)

/-- The whole generation loop of cell 26: `for i in
trange(n_predictions // jax.device_count())`, one fresh sub-key per
iteration, accumulating the decoded images of every iteration in order. -/
def generationLoop (W nPredictions : ℕ) (gen : ℕ → List ℕ)
    (dec : List ℕ → List ℚ) (seed : ℕ) : List (List ℚ) :=
  ((subkeySeq (PRNGKey seed) (nPredictions / W)).map
    (loopIteration W gen dec)).flatten

/-! ## Scoring (notebook cell 28) -/

/-- Cell 28: the text input handed to the CLIP processor — the RAW prompt
(the notebook passes `prompt`, not `processed_prompt`), tokenised by the
CLIP tokenizer (`clipTok`, an opaque external artifact modelled from the
spec), padded/truncated to the CLIP max length 77.  The normalisation
configuration is a parameter only to record that the result does not depend
on it. -/
def scoringTextInput (clipTok : String → List ℕ) (padId : ℕ)
    (normalizeText : Bool) (normalizer : String → String) (prompt : String) :
    List ℕ :=
  padToMax 77 padId (clipTok prompt)

/-- Cell 28: `p_clip(shard(clip_inputs), clip_params)` followed by
`squeeze().flatten()` — shard the image list across the workers, compute one
CLIP logit per image on each worker (`score` abstracts the CLIP model's
per-image logit against the fixed prompt), and flatten the per-worker
results back into one flat score list. -/
def scoringStage (W : ℕ) (score : List ℚ → ℚ) (images : List (List ℚ)) :
    List ℚ :=
  unshard ((shard W images).map fun sh => sh.map score)

/-! ## Ranking (notebook cell 30) -/

/-- Cell 30: `logits.argsort()[::-1]` — the indices of the scores sorted
ascending by score, then reversed, i.e. image indices in descending score
order. -/
def rankIndices (scores : List ℚ) : List ℕ :=
  (List.insertionSort (fun i j => scores.getD i 0 ≤ scores.getD j 0)
    (List.range scores.length)).reverse

/-- The scores in presentation order: cell 30 displays `images[idx]` with
`logits[idx]` for `idx` in `rankIndices`. -/
def presentedScores (scores : List ℚ) : List ℚ :=
  (rankIndices scores).map fun i => scores.getD i 0

/-! ## Helper lemmas -/

theorem chunkExact_length (k : ℕ) : ∀ (n : ℕ) (xs : List α),
    (chunkExact k n xs).length = n
  | 0, _ => rfl
  | n + 1, xs => by simp [chunkExact, chunkExact_length k n]

theorem chunkExact_getD (k : ℕ) : ∀ (n i : ℕ) (xs : List α), i < n →
    (chunkExact k n xs).getD i [] = (xs.drop (i * k)).take k
  | n + 1, 0, xs, _ => by simp [chunkExact]
  | n + 1, i + 1, xs, h => by
    have ih := chunkExact_getD k n i (xs.drop k) (by omega)
    simp only [chunkExact, List.getD_cons_succ, ih, List.drop_drop]
    congr 2
    ring

theorem flatten_chunkExact (k : ℕ) : ∀ (n : ℕ) (xs : List α),
    (chunkExact k n xs).flatten = xs.take (n * k)
  | 0, xs => by simp [chunkExact]
  | n + 1, xs => by
    simp only [chunkExact, List.flatten_cons, flatten_chunkExact k n]
    rw [show (n + 1) * k = k + n * k by ring, List.take_add]

theorem chunkExact_full_length (k : ℕ) : ∀ (n : ℕ) (xs : List α),
    n * k ≤ xs.length → ∀ c ∈ chunkExact k n xs, c.length = k
  | 0, _, _ => by simp [chunkExact]
  | n + 1, xs, h => by
    rw [Nat.succ_mul] at h
    intro c hc
    rcases List.mem_cons.1 hc with hc | hc
    · subst hc
      simp only [List.length_take]
      omega
    · refine chunkExact_full_length k n (xs.drop k) ?_ c hc
      simp only [List.length_drop]
      omega

theorem chunkExact_mem_mem (k : ℕ) : ∀ (n : ℕ) (xs : List α),
    ∀ c ∈ chunkExact k n xs, ∀ x ∈ c, x ∈ xs
  | 0, _ => by simp [chunkExact]
  | n + 1, xs => by
    intro c hc x hx
    rcases List.mem_cons.1 hc with hc | hc
    · exact List.take_subset k xs (hc ▸ hx)
    · exact List.drop_subset k xs (chunkExact_mem_mem k n (xs.drop k) c hc x hx)

theorem unshard_shard {W : ℕ} {xs : List α} (h : W ∣ xs.length) :
    unshard (shard W xs) = xs := by
  unfold unshard shard
  rw [flatten_chunkExact, Nat.mul_div_cancel' h, List.take_length]

theorem scoringStage_eq_map (W : ℕ) (score : List ℚ → ℚ)
    (images : List (List ℚ)) (h : W ∣ images.length) :
    scoringStage W score images = images.map score := by
  calc scoringStage W score images
      = ((shard W images).map (List.map score)).flatten := rfl
    _ = List.map score (shard W images).flatten := (List.map_flatten _ _).symm
    _ = images.map score := by
        rw [show (shard W images).flatten = unshard (shard W images) from rfl,
          unshard_shard h]

theorem clip01_nonneg (x : ℚ) : 0 ≤ clip01 x :=
  le_min (le_max_right x 0) zero_le_one

theorem clip01_le_one (x : ℚ) : clip01 x ≤ 1 :=
  min_le_right _ 1

theorem clip01_eq (x : ℚ) :
    clip01 x = if x < 0 then 0 else if 1 < x then 1 else x := by
  unfold clip01
  split_ifs with h1 h2
  · rw [max_eq_right h1.le, min_eq_left zero_le_one]
  · rw [max_eq_left (not_lt.1 h1), min_eq_right h2.le]
  · rw [max_eq_left (not_lt.1 h1), min_eq_left (not_lt.1 h2)]

theorem subkeySeq_length : ∀ (k n : ℕ), (subkeySeq k n).length = n
  | _, 0 => rfl
  | k, n + 1 => by simp [subkeySeq, subkeySeq_length _ n]

theorem shardPrngKey_length (k W : ℕ) : (shardPrngKey k W).length = W := by
  simp [shardPrngKey]

theorem shardPrngKey_nodup (k W : ℕ) : (shardPrngKey k W).Nodup := by
  refine List.Nodup.map ?_ (List.nodup_range W)
  intro i j hij
  have := Nat.pair_eq_pair.1 hij
  omega

theorem map_getD_range (xs : List ℚ) :
    (List.range xs.length).map (fun i => xs.getD i 0) = xs := by
  apply List.ext_getElem
  · simp
  · intro i h1 h2
    rw [List.getElem_map, List.getElem_range, List.getD_eq_getElem xs 0 h2]

theorem flatten_length_of_const {β : Type} (f : β → List α) (c : ℕ)
    (hf : ∀ b, (f b).length = c) (l : List β) :
    ((l.map f).flatten).length = l.length * c := by
  rw [List.length_flatten, List.map_map]
  have h : List.map (List.length ∘ f) l = List.replicate l.length c := by
    rw [← List.map_const]
    exact List.map_congr_left fun b _ => hf b
  rw [h, List.sum_replicate, smul_eq_mul]

theorem imageSize_pos : 0 < imageSize := by
  norm_num [imageSize]

theorem loopIteration_length (W : ℕ) (gen : ℕ → List ℕ)
    (dec : List ℕ → List ℚ) (hdec : ∀ s, (dec s).length = imageSize)
    (subkey : ℕ) : (loopIteration W gen dec subkey).length = W := by
  unfold loopIteration decodeStage
  rw [chunkExact_length,
    flatten_length_of_const (fun s => dec (stripBOS s)) imageSize
      (fun b => hdec _) _]
  unfold pGenerate
  rw [List.length_map, shardPrngKey_length, Nat.mul_div_cancel _ imageSize_pos]

theorem generationLoop_length (W n : ℕ) (gen : ℕ → List ℕ)
    (dec : List ℕ → List ℚ) (seed : ℕ)
    (hdec : ∀ s, (dec s).length = imageSize) :
    (generationLoop W n gen dec seed).length = (n / W) * W := by
  unfold generationLoop
  rw [flatten_length_of_const (loopIteration W gen dec) W
    (loopIteration_length W gen dec hdec), subkeySeq_length]

theorem presentedScores_perm (scores : List ℚ) :
    (presentedScores scores).Perm scores := by
  unfold presentedScores
  have h1 : (rankIndices scores).Perm (List.range scores.length) :=
    (List.reverse_perm _).trans (List.perm_insertionSort _ _)
  have h2 := h1.map fun i => scores.getD i 0
  rwa [map_getD_range] at h2

theorem presentedScores_antitone (scores : List ℚ) :
    (presentedScores scores).Pairwise (fun a b => b ≤ a) := by
  unfold presentedScores rankIndices
  rw [List.pairwise_map, List.pairwise_reverse]
  haveI : IsTotal ℕ (fun i j => scores.getD i 0 ≤ scores.getD j 0) :=
    ⟨fun a b => le_total _ _⟩
  haveI : IsTrans ℕ (fun i j => scores.getD i 0 ≤ scores.getD j 0) :=
    ⟨fun a b c hab hbc => le_trans hab hbc⟩
  exact List.sorted_insertionSort _ _

theorem presentedScores_strict (scores : List ℚ) (h : scores.Nodup) :
    (presentedScores scores).Pairwise (fun a b => b < a) := by
  have h1 := presentedScores_antitone scores
  have h2 : (presentedScores scores).Nodup := (presentedScores_perm scores).symm.nodup h
  exact (h1.and h2).imp fun hab => lt_of_le_of_ne hab.1 (Ne.symm hab.2)

/-! ## Claim theorems -/

/-- C1: Ranking & Presentation sorts image indices in descending order of
their similarity scores: for every list of scores the presentation order is
a permutation of the indices along which the scores are non-increasing, and
for scores [0.71, 0.95, 0.33] the ranked order of indices is [1, 0, 2]. -/
theorem ranking_sorts_indices_descending (scores : List ℚ) :
    (rankIndices scores).Perm (List.range scores.length) ∧
    (presentedScores scores).Pairwise (fun a b => b ≤ a) ∧
    rankIndices [71/100, 95/100, 33/100] = [1, 0, 2] := by
  refine ⟨(List.reverse_perm _).trans (List.perm_insertionSort _ _),
    presentedScores_antitone scores, ?_⟩
  norm_num [rankIndices, List.insertionSort, List.orderedInsert]

/-- C3: for every raw codec output array, every pixel value of the Decoding
Stage's output lies in [0,1] (values below 0 become 0, values above 1 become
1), and the output is reshaped into images of the fixed resolution
256 × 256 × 3. -/
theorem decode_clips_and_reshapes (raw : List ℚ) :
    (∀ img ∈ decodeStage raw, img.length = imageSize ∧
      ∀ x ∈ img, 0 ≤ x ∧ x ≤ 1) ∧
    (decodeStage raw).length = raw.length / imageSize ∧
    (∀ x : ℚ, clip01 x = if x < 0 then 0 else if 1 < x then 1 else x) := by
  refine ⟨?_, chunkExact_length _ _ _, clip01_eq⟩
  intro img himg
  constructor
  · refine chunkExact_full_length imageSize (raw.length / imageSize)
      (raw.map clip01) ?_ img himg
    rw [List.length_map]
    exact Nat.div_mul_le_self _ _
  · intro x hx
    have hmem := chunkExact_mem_mem imageSize (raw.length / imageSize)
      (raw.map clip01) img himg x hx
    obtain ⟨y, _, rfl⟩ := List.mem_map.1 hmem
    exact ⟨clip01_nonneg y, clip01_le_one y⟩

/-- Witness for C3 at the concrete raw array `replicate imageSize 2`. -/
theorem decode_clips_and_reshapes_witness :
    (∀ img ∈ decodeStage (List.replicate imageSize 2), img.length = imageSize ∧
      ∀ x ∈ img, 0 ≤ x ∧ x ≤ 1) ∧
    (decodeStage (List.replicate imageSize 2)).length
      = (List.replicate imageSize (2 : ℚ)).length / imageSize ∧
    (∀ x : ℚ, clip01 x = if x < 0 then 0 else if 1 < x then 1 else x) :=
  decode_clips_and_reshapes (List.replicate imageSize 2)

/-- C4: for every generated (nonempty) image-token sequence, exactly the
leading sequence-start token is removed before decoding — the stripped
sequence is the tail, the original is the removed head consed onto it, and
the length drops by exactly one. -/
theorem stripBOS_removes_exactly_leading (s : List ℕ) (h : s ≠ []) :
    stripBOS s = s.tail ∧ s = s.head h :: stripBOS s ∧
    (stripBOS s).length = s.length - 1 := by
  refine ⟨List.drop_one s, ?_, by simp [stripBOS]⟩
  rw [show stripBOS s = s.tail from List.drop_one s]
  exact (List.head_cons_tail s h).symm

/-- Witness for C4 at the concrete sequence [0, 314, 159]. -/
theorem stripBOS_removes_exactly_leading_witness :
    stripBOS [0, 314, 159] = [314, 159] ∧
    (stripBOS [0, 314, 159]).length = 2 := by
  have h := stripBOS_removes_exactly_leading [0, 314, 159] (by simp)
  exact ⟨h.1, h.2.2⟩

/-- C5: the Device Distributor round-trips — for every list whose leading
dimension equals the worker count, unshard (shard W X) = X — and sharding
preserves element order: shard i is exactly the i-th consecutive slice of
the batch. -/
theorem shard_unshard_roundtrip {α : Type} (W : ℕ) (xs : List α)
    (h : xs.length = W) :
    unshard (shard W xs) = xs ∧
    ∀ i, i < W → (shard W xs).getD i [] =
      (xs.drop (i * (xs.length / W))).take (xs.length / W) := by
  constructor
  · exact unshard_shard (by rw [h])
  · intro i hi
    exact chunkExact_getD _ W i xs hi

/-- Witness for C5 at worker count 3 and the batch [10, 20, 30]. -/
theorem shard_unshard_roundtrip_witness :
    ([10, 20, 30] : List ℕ).length = 3 ∧
    (unshard (shard 3 [10, 20, 30]) = ([10, 20, 30] : List ℕ) ∧
      ∀ i, i < 3 → (shard 3 ([10, 20, 30] : List ℕ)).getD i [] =
        (([10, 20, 30] : List ℕ).drop
          (i * (([10, 20, 30] : List ℕ).length / 3))).take
          (([10, 20, 30] : List ℕ).length / 3)) :=
  ⟨by decide, shard_unshard_roundtrip 3 [10, 20, 30] (by decide)⟩

/-- C8: the per-iteration random key handling is deterministic given the
initial seed — the sequence of per-iteration sub-keys depends only on the
seed — and each iteration's sub-key is split deterministically into exactly
one distinct sub-key per parallel worker. -/
theorem prng_reproducible_per_worker (seed n W : ℕ) :
    (∀ seed2, seed2 = seed →
      subkeySeq (PRNGKey seed2) n = subkeySeq (PRNGKey seed) n) ∧
    (subkeySeq (PRNGKey seed) n).length = n ∧
    (∀ k, (shardPrngKey k W).length = W) ∧
    (∀ k, (shardPrngKey k W).Nodup) :=
  ⟨fun _ hq => by rw [hq], subkeySeq_length _ n,
    fun k => shardPrngKey_length k W, fun k => shardPrngKey_nodup k W⟩

/-- Witness for C8 at seed 7, 3 iterations, 4 workers. -/
theorem prng_reproducible_per_worker_witness :
    (∀ seed2, seed2 = 7 →
      subkeySeq (PRNGKey seed2) 3 = subkeySeq (PRNGKey 7) 3) ∧
    (subkeySeq (PRNGKey 7) 3).length = 3 ∧
    (∀ k, (shardPrngKey k 4).length = 4) ∧
    (∀ k, (shardPrngKey k 4).Nodup) :=
  prng_reproducible_per_worker 7 3 4

/-- C2: when the worker count W divides the prediction count N the pipeline
performs exactly N / W generation iterations, each iteration yields one
image-token sequence per worker, the run produces exactly N images and N
scores, and the presentation order is strictly descending whenever the
scores are pairwise distinct (the end-to-end scenario N = 8, W = 4 is the
witness: 2 iterations, 8 images, 8 scores). -/
theorem pipeline_counts_when_divisible (W n seed : ℕ) (gen : ℕ → List ℕ)
    (dec : List ℕ → List ℚ) (score : List ℚ → ℚ)
    (hdvd : W ∣ n) (hdec : ∀ s, (dec s).length = imageSize) :
    (subkeySeq (PRNGKey seed) (n / W)).length = n / W ∧
    (∀ subkey, (pGenerate gen (shardPrngKey subkey W)).length = W) ∧
    (∀ subkey, (loopIteration W gen dec subkey).length = W) ∧
    (generationLoop W n gen dec seed).length = n ∧
    (scoringStage W score (generationLoop W n gen dec seed)).length = n ∧
    (∀ scores : List ℚ, scores.length = n → scores.Nodup →
      (presentedScores scores).Pairwise fun a b => b < a) := by
  have hlen : (generationLoop W n gen dec seed).length = n := by
    rw [generationLoop_length W n gen dec seed hdec, Nat.div_mul_cancel hdvd]
  refine ⟨subkeySeq_length _ _, ?_, loopIteration_length W gen dec hdec,
    hlen, ?_, ?_⟩
  · intro subkey
    unfold pGenerate
    rw [List.length_map, shardPrngKey_length]
  · rw [scoringStage_eq_map W score _ (by rw [hlen]; exact hdvd),
      List.length_map, hlen]
  · intro scores _ hnd
    exact presentedScores_strict scores hnd

/-- Witness for C2 at the end-to-end scenario: 8 predictions on 4 workers
give 2 iterations, 8 images and 8 scores. -/
theorem pipeline_counts_when_divisible_witness :
    (4 : ℕ) ∣ 8 ∧
    (∀ s : List ℕ,
      ((fun _ : List ℕ => List.replicate imageSize (0 : ℚ)) s).length
        = imageSize) ∧
    (subkeySeq (PRNGKey 0) (8 / 4)).length = 2 ∧
    (generationLoop 4 8 (fun _ => [0, 1])
      (fun _ => List.replicate imageSize (0 : ℚ)) 0).length = 8 ∧
    (scoringStage 4 (fun _ => 0) (generationLoop 4 8 (fun _ => [0, 1])
      (fun _ => List.replicate imageSize (0 : ℚ)) 0)).length = 8 := by
  have h := pipeline_counts_when_divisible 4 8 0 (fun _ => [0, 1])
    (fun _ => List.replicate imageSize (0 : ℚ)) (fun _ => 0)
    (by decide) (fun s => by simp)
  exact ⟨by decide, fun s => by simp, h.1, h.2.2.2.1, h.2.2.2.2.1⟩

/-- C6: the Tokenizer Adapter is deterministic for a fixed prompt and
tokenizer, the token array and the attention mask each have the fixed length
128 per replica, the tokenisation is truncated if longer and padded if
shorter, and the prompt is replicated once per worker. -/
theorem tokenizer_adapter_deterministic (tok : String → List ℕ) (p : String)
    (W : ℕ) :
    (∀ q, q = p → tokenizerAdapter tok q = tokenizerAdapter tok p) ∧
    (tokenizerAdapter tok p).1.length = 128 ∧
    (tokenizerAdapter tok p).2.length = 128 ∧
    (128 ≤ (tok p).length → (tokenizerAdapter tok p).1 = (tok p).take 128) ∧
    ((tok p).length ≤ 128 → (tokenizerAdapter tok p).1 =
      tok p ++ List.replicate (128 - (tok p).length) 1) ∧
    (tokenizedPrompt tok W p).length = W ∧
    (∀ entry ∈ tokenizedPrompt tok W p, entry = tokenizerAdapter tok p) := by
  refine ⟨fun q hq => by rw [hq], ?_, ?_, ?_, ?_, ?_, ?_⟩
  · simp only [tokenizerAdapter, padToMax, List.length_append,
      List.length_take, List.length_replicate]
    omega
  · simp only [tokenizerAdapter, attentionMask, List.length_append,
      List.length_replicate]
    omega
  · intro hlen
    simp [tokenizerAdapter, padToMax, Nat.sub_eq_zero_of_le hlen]
  · intro hlen
    simp [tokenizerAdapter, padToMax, List.take_of_length_le hlen]
  · simp [tokenizedPrompt]
  · intro entry he
    simp only [tokenizedPrompt, List.mem_map] at he
    obtain ⟨q, hq, rfl⟩ := he
    rw [List.eq_of_mem_replicate hq]

/-- Witness for C6 at a concrete tokenizer and the prompt of cell 17. -/
theorem tokenizer_adapter_deterministic_witness :
    (∀ q, q = "a red T-shirt" →
      tokenizerAdapter (fun _ => [0, 9, 2]) q =
        tokenizerAdapter (fun _ => [0, 9, 2]) "a red T-shirt") ∧
    (tokenizerAdapter (fun _ => [0, 9, 2]) "a red T-shirt").1.length = 128 ∧
    (tokenizerAdapter (fun _ => [0, 9, 2]) "a red T-shirt").2.length = 128 ∧
    (128 ≤ ([0, 9, 2] : List ℕ).length →
      (tokenizerAdapter (fun _ => [0, 9, 2]) "a red T-shirt").1 =
        ([0, 9, 2] : List ℕ).take 128) ∧
    (([0, 9, 2] : List ℕ).length ≤ 128 →
      (tokenizerAdapter (fun _ => [0, 9, 2]) "a red T-shirt").1 =
        [0, 9, 2] ++ List.replicate (128 - ([0, 9, 2] : List ℕ).length) 1) ∧
    (tokenizedPrompt (fun _ => [0, 9, 2]) 4 "a red T-shirt").length = 4 ∧
    (∀ entry ∈ tokenizedPrompt (fun _ => [0, 9, 2]) 4 "a red T-shirt",
      entry = tokenizerAdapter (fun _ => [0, 9, 2]) "a red T-shirt") :=
  tokenizer_adapter_deterministic (fun _ => [0, 9, 2]) "a red T-shirt" 4

/-- C7: for every list of generated images whose length the worker count
divides, the Scoring Stage returns a flat score sequence whose length equals
the number of input images, and score i is the score of image i. -/
theorem scoring_length_and_alignment (W : ℕ) (score : List ℚ → ℚ)
    (images : List (List ℚ)) (hdvd : W ∣ images.length) :
    (scoringStage W score images).length = images.length ∧
    ∀ i, i < images.length →
      (scoringStage W score images).getD i 0 = score (images.getD i []) := by
  have he := scoringStage_eq_map W score images hdvd
  constructor
  · rw [he, List.length_map]
  · intro i hi
    rw [he, List.getD_eq_getElem _ _ (by simpa using hi), List.getElem_map,
      List.getD_eq_getElem _ _ hi]

/-- Witness for C7 at 2 workers and 4 one-pixel images. -/
theorem scoring_length_and_alignment_witness :
    (2 : ℕ) ∣ ([[(1 : ℚ)], [2], [3], [4]] : List (List ℚ)).length ∧
    ((scoringStage 2 (fun l => l.getD 0 0)
        [[(1 : ℚ)], [2], [3], [4]]).length
      = ([[(1 : ℚ)], [2], [3], [4]] : List (List ℚ)).length ∧
    ∀ i, i < ([[(1 : ℚ)], [2], [3], [4]] : List (List ℚ)).length →
      (scoringStage 2 (fun l => l.getD 0 0)
          [[(1 : ℚ)], [2], [3], [4]]).getD i 0
        = (fun l => l.getD 0 0)
            (([[(1 : ℚ)], [2], [3], [4]] : List (List ℚ)).getD i [])) :=
  ⟨⟨2, rfl⟩, scoring_length_and_alignment 2 (fun l => l.getD 0 0)
    [[(1 : ℚ)], [2], [3], [4]] ⟨2, rfl⟩⟩

/-- C9: when the worker count W does not necessarily divide the prediction
count N, the pipeline performs floor(N / W) generation iterations and
produces exactly W * floor(N / W) = N - N mod W images — the remainder is
silently dropped — and when N < W it performs zero iterations and produces
no images at all. -/
theorem pipeline_drops_remainder (W n seed : ℕ) (gen : ℕ → List ℕ)
    (dec : List ℕ → List ℚ) (hdec : ∀ s, (dec s).length = imageSize) :
    (subkeySeq (PRNGKey seed) (n / W)).length = n / W ∧
    (generationLoop W n gen dec seed).length = W * (n / W) ∧
    (generationLoop W n gen dec seed).length = n - n % W ∧
    (n < W → generationLoop W n gen dec seed = []) := by
  have h1 := generationLoop_length W n gen dec seed hdec
  refine ⟨subkeySeq_length _ _, by rw [h1]; ring, ?_, ?_⟩
  · rw [h1]
    exact Nat.eq_sub_of_add_eq (Nat.div_add_mod' n W)
  · intro hnw
    unfold generationLoop
    rw [Nat.div_eq_of_lt hnw]
    rfl

/-- Witness for C9 at 3 predictions on 4 workers: zero iterations, no
images. -/
theorem pipeline_drops_remainder_witness :
    (∀ s : List ℕ,
      ((fun _ : List ℕ => List.replicate imageSize (0 : ℚ)) s).length
        = imageSize) ∧
    (subkeySeq (PRNGKey 0) (3 / 4)).length = 3 / 4 ∧
    (generationLoop 4 3 (fun _ => [0, 1])
      (fun _ => List.replicate imageSize (0 : ℚ)) 0).length = 4 * (3 / 4) ∧
    (generationLoop 4 3 (fun _ => [0, 1])
      (fun _ => List.replicate imageSize (0 : ℚ)) 0).length = 3 - 3 % 4 ∧
    (3 < 4 → generationLoop 4 3 (fun _ => [0, 1])
      (fun _ => List.replicate imageSize (0 : ℚ)) 0 = []) := by
  have h := pipeline_drops_remainder 4 3 0 (fun _ => [0, 1])
    (fun _ => List.replicate imageSize (0 : ℚ)) (fun s => by simp)
  exact ⟨fun s => by simp, h.1, h.2.1, h.2.2.1, h.2.2.2⟩

/-- C10: the Scoring Stage tokenizes the raw original prompt — its text
input does not depend on the normalisation configuration — under its own
fixed maximum length of 77 tokens with truncation, so the input always has
length 77 and, for every prompt whose CLIP tokenisation exceeds 77 tokens,
the scores are computed against the truncated first 77 tokens rather than
the full tokenisation. -/
theorem scoring_tokenizes_raw_prompt (clipTok : String → List ℕ)
    (padId : ℕ) (normalizeText : Bool) (normalizer : String → String)
    (prompt : String) :
    scoringTextInput clipTok padId normalizeText normalizer prompt =
      scoringTextInput clipTok padId false id prompt ∧
    scoringTextInput clipTok padId normalizeText normalizer prompt =
      padToMax 77 padId (clipTok prompt) ∧
    (scoringTextInput clipTok padId normalizeText normalizer prompt).length
      = 77 ∧
    (77 < (clipTok prompt).length →
      scoringTextInput clipTok padId normalizeText normalizer prompt =
        (clipTok prompt).take 77 ∧
      scoringTextInput clipTok padId normalizeText normalizer prompt ≠
        clipTok prompt) := by
  refine ⟨rfl, rfl, ?_, ?_⟩
  · simp only [scoringTextInput, padToMax, List.length_append,
      List.length_take, List.length_replicate]
    omega
  · intro hlen
    constructor
    · simp [scoringTextInput, padToMax, Nat.sub_eq_zero_of_le hlen.le]
    · intro hcontra
      have hle := congrArg List.length hcontra
      simp only [scoringTextInput, padToMax, List.length_append,
        List.length_take, List.length_replicate] at hle
      omega

/-- Witness for C10 at a CLIP tokenisation of length 100 for the prompt of
cell 17. -/
theorem scoring_tokenizes_raw_prompt_witness :
    scoringTextInput (fun _ => List.range 100) 0 true
        (fun _ => "normalized") "a red T-shirt" =
      scoringTextInput (fun _ => List.range 100) 0 false id "a red T-shirt" ∧
    scoringTextInput (fun _ => List.range 100) 0 true
        (fun _ => "normalized") "a red T-shirt" =
      padToMax 77 0 (List.range 100) ∧
    (scoringTextInput (fun _ => List.range 100) 0 true
        (fun _ => "normalized") "a red T-shirt").length = 77 ∧
    (77 < (List.range 100).length →
      scoringTextInput (fun _ => List.range 100) 0 true
          (fun _ => "normalized") "a red T-shirt" =
        (List.range 100).take 77 ∧
      scoringTextInput (fun _ => List.range 100) 0 true
          (fun _ => "normalized") "a red T-shirt" ≠
        List.range 100) :=
  scoring_tokenizes_raw_prompt (fun _ => List.range 100) 0 true
    (fun _ => "normalized") "a red T-shirt"

/-- Witness for C1 at the spec's concrete scores [0.71, 0.95, 0.33]. -/
theorem ranking_sorts_indices_descending_witness :
    (rankIndices [71/100, 95/100, 33/100]).Perm
      (List.range ([71/100, 95/100, 33/100] : List ℚ).length) ∧
    (presentedScores [71/100, 95/100, 33/100]).Pairwise (fun a b => b ≤ a) ∧
    rankIndices [71/100, 95/100, 33/100] = [1, 0, 2] :=
  ranking_sorts_indices_descending [71/100, 95/100, 33/100]
